import Mathlib

/-!
Verification of the fusion reconciliation engine (`src/fusion-wasm/src/lib.rs`,
`src/src/fiber.rs`): a fiber-tree based, interruptible tree-reconciliation
core with a positional children diff, a work-loop scheduler and a
commit phase that applies effects to a host (DOM) tree.

The embedding is shallow: the `Rc<RefCell<...>>` fiber graph is modelled by
pure trees (the `child`/`sibling` chain of a fiber becomes a `List Fiber`,
`parent` links become the recursion context), host-adapter calls become an
explicit event trace, and Rust panics (`unwrap`, out-of-range `Vec` indexing)
become an `Except Panic` error.
-/

namespace Fusion

/-- Modelled from the spec (§6/§4.4): the constants module is not part of the
sources; the text-element marker is an opaque reserved tag string, only its
equality with fiber tags matters. -/
def TEXT_ELEMENT : String := "TEXT_ELEMENT"

/-- Modelled from the spec: reserved tag for the root fiber
(`Fiber::new_root`, `fiber.rs:47-49`). -/
def FIBER_ROOT : String := "ROOT"

/-- Modelled from the spec (§3, §4.4): the element module is not part of the
sources; the core only reads two attributes from the attribute map, via
`class_name()` and `node_value()` (`lib.rs:142-174`), both optional. -/
structure ElementProps where
  class_name : Option String
  node_value : Option String
deriving DecidableEq

/-- Modelled from the spec (§3 VirtualNode): tag, attributes, ordered
children.  `props` and `children` are optional because the fiber model
(`fiber.rs:10-11`) stores both as `Option` taken (moved) from the element. -/
inductive Element where
| mk (element_type : String) (props : Option ElementProps)
     (children : Option (List Element))

/-- `Element::element_type` accessor. -/
def Element.element_type : Element → String
| .mk t _ _ => t

/-- `Element::props` accessor (`props_mut().take()` in `lib.rs:214,243`). -/
def Element.props : Element → Option ElementProps
| .mk _ p _ => p

/-- `Element::children` accessor (`children_mut().take()` in `lib.rs:216,244`). -/
def Element.children : Element → Option (List Element)
| .mk _ _ c => c

/-- Host node handle (`element.rs` `Node` enum as used by `lib.rs:127-140`,
`383-393`): an element or text node.  Concrete `web_sys` handles are replaced
by allocation identifiers. -/
inductive Node where
| element (id : Nat)
| text (id : Nat)
deriving DecidableEq

/-- The identifier carried by a host node handle. -/
def Node.id : Node → Nat
| .element i => i
| .text i => i

/-- `FiberEffect` (`fiber.rs:211-216`).  The spec's names Mount/Update/Unmount
correspond to Placement/Update/Deletion in the source. -/
inductive FiberEffect where
| Placement
| Update
| Deletion
deriving DecidableEq

/-- The fiber tree (`fiber.rs:8-26`).  The `child`/`sibling` chain is
modelled as the list `children`; the `parent` back-link is represented by the
traversal context; the functional-component and hook fields are unused by the
non-functional paths under verification (`lib.rs:91-92` is `todo!()`). -/
inductive Fiber where
| mk (element_type : String) (props : Option ElementProps)
     (element_children : Option (List Element))
     (dom_node : Option Node)
     (effect : Option FiberEffect)
     (alternate : Option Fiber)
     (children : List Fiber)

/-- `Fiber::element_type` (`fiber.rs:51-53`). -/
def Fiber.element_type : Fiber → String
| .mk t _ _ _ _ _ _ => t

/-- `Fiber::props` (`fiber.rs:79-81`). -/
def Fiber.props : Fiber → Option ElementProps
| .mk _ p _ _ _ _ _ => p

/-- `Fiber::element_children` (`fiber.rs:111-113`). -/
def Fiber.element_children : Fiber → Option (List Element)
| .mk _ _ ec _ _ _ _ => ec

/-- `Fiber::dom_node` (`fiber.rs:63-65`). -/
def Fiber.dom_node : Fiber → Option Node
| .mk _ _ _ d _ _ _ => d

/-- `Fiber::effect` (`fiber.rs:119-121`; `lib.rs` calls it `effect()`). -/
def Fiber.effect : Fiber → Option FiberEffect
| .mk _ _ _ _ e _ _ => e

/-- `Fiber::alternate` (`fiber.rs:103-105`). -/
def Fiber.alternate : Fiber → Option Fiber
| .mk _ _ _ _ _ a _ => a

/-- The fiber's `child` + `sibling` chain, as a list (`fiber.rs:71-101`). -/
def Fiber.children : Fiber → List Fiber
| .mk _ _ _ _ _ _ c => c

/-- `Fiber::set_effect` (`fiber.rs:123-125`). -/
def Fiber.set_effect : Fiber → FiberEffect → Fiber
| .mk t p ec d _ a c, e => .mk t p ec d (some e) a c

/-- Rust panics of the modelled code paths. -/
inductive Panic where
| indexOutOfBounds (idx : Nat)
| unwrapNone
| propsUnwrap
| nodeValueUnwrap
deriving DecidableEq

/-- Host-adapter calls (§4.4 of the spec), recorded as a trace. -/
inductive HostEvent where
| createElement (id : Nat) (tag : String)
| createTextNode (id : Nat) (value : String)
| setClassName (id : Nat) (value : String)
| setNodeValue (id : Nat) (value : String)
| appendChild (parentId : Nat) (childId : Nat)
| removeChild (parentId : Nat) (childId : Nat)
deriving DecidableEq

/-- Whether a host event is a `removeChild` call. -/
def HostEvent.isRemoveChild : HostEvent → Bool
| .removeChild _ _ => true
| _ => false

/-- `Context::update_dom_node` (`lib.rs:142-157`): patch the class name,
emitting a `setClassName` only when it is present and changed. -/
def update_dom_node (dom_node : Node) (prev_props : Option ElementProps)
    (next_props : ElementProps) : List HostEvent :=
  let prev_class_name := prev_props.bind (·.class_name)
  let next_class_name := next_props.class_name
  match prev_class_name, next_class_name with
  | some prev, some next =>
      if prev ≠ next then [HostEvent.setClassName dom_node.id next] else []
  | none, some next => [HostEvent.setClassName dom_node.id next]
  | _, _ => []

/-- `Context::update_dom_text` (`lib.rs:159-174`): patch the text value,
emitting a `setNodeValue` only when it is present and changed. -/
def update_dom_text (text_node : Node) (prev_props : Option ElementProps)
    (next_props : ElementProps) : List HostEvent :=
  let prev_value := prev_props.bind (·.node_value)
  let next_value := next_props.node_value
  match prev_value, next_value with
  | some prev, some next =>
      if prev ≠ next then [HostEvent.setNodeValue text_node.id next] else []
  | none, some next => [HostEvent.setNodeValue text_node.id next]
  | _, _ => []

/-- `Context::create_dom_node` (`lib.rs:127-140`).  `next_id` threads the
document's node allocator.  `props().unwrap()` on a fiber with no props and
`node_value().unwrap()` on a text fiber with no text value are panics. -/
def create_dom_node (next_id : Nat) (element_type : String)
    (props : Option ElementProps) :
    Except Panic (Nat × Node × List HostEvent) :=
  match props with
  | none => .error .propsUnwrap
  | some props =>
    if element_type = TEXT_ELEMENT then
      match props.node_value with
      | none => .error .nodeValueUnwrap
      | some v =>
          .ok (next_id + 1, Node.text next_id, [HostEvent.createTextNode next_id v])
    else
      let node := Node.element next_id
      .ok (next_id + 1, node,
           HostEvent.createElement next_id element_type :: update_dom_node node none props)

/-- The new-generation child fiber produced for one position of the
reconciliation loop, before its own children have been reconciled
(`lib.rs:209-256`): the fields set via `Fiber::new` + setters. -/
structure ChildFiber where
  element_type : String
  props : Option ElementProps
  element_children : Option (List Element)
  dom_node : Option Node
  alternate : Option Fiber
  effect : FiberEffect

/-- One iteration of the reconciliation pairing (`lib.rs:199-256`): compare
the new child element against the old child fiber at the same position; on a
tag match build an `Update` fiber linked to the old child as alternate and
inheriting its dom node, otherwise a fresh `Placement` fiber. -/
def pairChild (child_element : Element) (old_child_fiber : Option Fiber) :
    ChildFiber :=
  match old_child_fiber with
  | some old_child =>
    if old_child.element_type = child_element.element_type then
      { element_type := old_child.element_type
        props := child_element.props
        element_children := child_element.children
        dom_node := old_child.dom_node
        alternate := some old_child
        effect := FiberEffect.Update }
    else
      { element_type := child_element.element_type
        props := child_element.props
        element_children := child_element.children
        dom_node := none
        alternate := none
        effect := FiberEffect.Placement }
  | none =>
      { element_type := child_element.element_type
        props := child_element.props
        element_children := child_element.children
        dom_node := none
        alternate := none
        effect := FiberEffect.Placement }

/-- The `while i < children_len || old_child_fiber.is_some()` loop of
`Context::reconcile_children` (`lib.rs:196-289`).  Each iteration evaluates
`children.unwrap().borrow_mut()[i]` first (`lib.rs:197`): a `None` children
vector is an `unwrap` panic and an out-of-range `i` is an indexing panic —
the loop condition alone keeps the walk alive while old children remain.
Returns the produced child fibers in order, together with the old child
fibers on which `set_effect(Deletion)` was called (`lib.rs:258-261`; the
`TODO` there notes they are pushed to no deletion array). -/
def reconcileLoop (children : Option (List Element)) (children_len : Nat)
    (i : Nat) (old_child_fiber : List Fiber) :
    Except Panic (List ChildFiber × List Fiber) :=
  if h : i < children_len ∨ 0 < old_child_fiber.length then
    match children with
    | none => .error .unwrapNone
    | some cs =>
      match cs.get? i with
      | none => .error (.indexOutOfBounds i)
      | some child_element =>
        let child_fiber := pairChild child_element old_child_fiber.head?
        let tagged : List Fiber :=
          match old_child_fiber.head? with
          | some old_child =>
              if old_child.element_type = child_element.element_type then []
              else [old_child.set_effect FiberEffect.Deletion]
          | none => []
        match reconcileLoop children children_len (i + 1) old_child_fiber.tail with
        | .error p => .error p
        | .ok (rest, rest_tagged) =>
            .ok (child_fiber :: rest, tagged ++ rest_tagged)
  else
    .ok ([], [])
termination_by (children_len - i) + old_child_fiber.length
decreasing_by
  have htl : old_child_fiber.tail.length = old_child_fiber.length - 1 :=
    List.length_tail _
  rcases h with h | h
  · omega
  · omega

/-- `Context::reconcile_children` (`lib.rs:176-294`): read the fiber's
pending element children and the old child chain from its alternate
(`lib.rs:177-194`), then run the positional walk. -/
def reconcile_children (fiber : Fiber) :
    Except Panic (List ChildFiber × List Fiber) :=
  let children := fiber.element_children
  let children_len := match children with
    | some cs => cs.length
    | none => 0
  let old_child_fiber : List Fiber :=
    match fiber.alternate with
    | some alternate => alternate.children
    | none => []
  reconcileLoop children children_len 0 old_child_fiber

/-- The children of a fiber's alternate, i.e. the old child chain paired
against the new children (`lib.rs:184-194`), for an optional alternate. -/
def altChildren : Option Fiber → List Fiber
| some a => a.children
| none => []

/-- A complete render pass run to exhaustion on a child list: the work loop
(`lib.rs:70-78`) repeatedly applies `perform_unit_of_work` (`lib.rs:87-125`),
which visits fibers depth-first in pre-order (child, else sibling, else the
nearest ancestor's sibling — see `nextLoc` below for that successor
function).  This function is that run in recursive form: for each position
it performs the pairing step of the parent's `reconcile_children`
(`pairChild`), then visits the produced fiber (creating its dom node when it
has none, `lib.rs:95-99`), recursively exhausts its subtree, and proceeds to
the following sibling.  On panic-free runs the host events are produced in
exactly the pre-order visiting order of the iterative loop.  The `Deletion`
tags set on old fibers (`lib.rs:258-261`) mutate only the previous
generation's tree, which no later step of the pass reads, so they are not
threaded here. -/
def buildChildren (next_id : Nat) (children : Option (List Element))
    (old_chain : List Fiber) :
    Except Panic (Nat × List Fiber × List HostEvent) :=
  match children, old_chain with
  | none, [] => .ok (next_id, [], [])
  | none, _ :: _ => .error .unwrapNone
  | some [], [] => .ok (next_id, [], [])
  | some [], _ :: _ => .error (.indexOutOfBounds 0)
  | some (Element.mk ct cp ck :: rest), old_chain =>
    let child_element := Element.mk ct cp ck
    let cf := pairChild child_element old_chain.head?
    match (match cf.dom_node with
           | some n => Except.ok (next_id, n, ([] : List HostEvent))
           | none => create_dom_node next_id cf.element_type cf.props) with
    | .error p => .error p
    | .ok (id1, node, evs1) =>
      match buildChildren id1 ck (altChildren cf.alternate) with
      | .error p => .error p
      | .ok (id2, kids, evs2) =>
        match buildChildren id2 (some rest) old_chain.tail with
        | .error p => .error p
        | .ok (id3, siblings, evs3) =>
            .ok (id3,
                 Fiber.mk cf.element_type cf.props cf.element_children
                   (some node) (some cf.effect) cf.alternate kids :: siblings,
                 evs1 ++ evs2 ++ evs3)
termination_by sizeOf children

/-- `render` (`lib.rs:407-433`) followed by a full work loop run: build the
root fiber whose single pending child is `element`, whose dom node is the
container and whose alternate is the current root, then exhaust the pass.
Returns the new allocator state, the finished work-in-progress root and the
host events of the render phase (node creations). -/
def render_pass (next_id : Nat) (element : Element) (current_root : Option Fiber)
    (container : Node) : Except Panic (Nat × Fiber × List HostEvent) :=
  match buildChildren next_id (some [element]) (altChildren current_root) with
  | .error p => .error p
  | .ok (id1, kids, evs) =>
      .ok (id1,
           Fiber.mk FIBER_ROOT none (some [element]) (some container) none
             current_root kids,
           evs)

/-- Commit-phase failures: a host-adapter (`JsValue`) error from
`append_child` (`lib.rs:386,391`), or the `props().unwrap()` panic of the
`Update` arm (`lib.rs:337`). -/
inductive CommitError where
| jsError
| panicked (p : Panic)
deriving DecidableEq

/-- `Context::commit_node_append` (`lib.rs:371-398`): when both the fiber and
its nearest dom-bearing ancestor have host nodes and the parent is an
element, call the host adapter's `append_child`; `append_ok` injects the
adapter's success or failure.  A text parent's pattern falls to `_ => {}`. -/
def commit_node_append (append_ok : Nat → Nat → Bool) (fiber_dom : Option Node)
    (parent_dom_node : Option Node) : List HostEvent × Option CommitError :=
  match fiber_dom, parent_dom_node with
  | some dom_node, some parent_node =>
    match parent_node, dom_node with
    | Node.element pid, Node.element cid =>
        if append_ok pid cid then ([HostEvent.appendChild pid cid], none)
        else ([], some CommitError.jsError)
    | Node.element pid, Node.text cid =>
        if append_ok pid cid then ([HostEvent.appendChild pid cid], none)
        else ([], some CommitError.jsError)
    | _, _ => ([], none)
  | _, _ => ([], none)

/-- The effect arm of `Context::commit_work` for one fiber
(`lib.rs:315-363`): `Placement` appends under the nearest dom-bearing
ancestor (`anc`, the result of the `parents()` walk of `lib.rs:319-326`),
`Update` patches via `update_dom_node`/`update_dom_text` against the
alternate's props, and the `Deletion` arm (`lib.rs:359-361`) is empty. -/
def commit_effect (append_ok : Nat → Nat → Bool) (anc : Option Node)
    (f : Fiber) : List HostEvent × Option CommitError :=
  match f.effect with
  | some FiberEffect.Placement => commit_node_append append_ok f.dom_node anc
  | some FiberEffect.Update =>
    match f.dom_node with
    | none => ([], none)
    | some node =>
      match f.alternate with
      | none => ([], none)
      | some alternate =>
        let prev_props := alternate.props
        match f.props with
        | none => ([], some (CommitError.panicked Panic.propsUnwrap))
        | some next_props =>
          match node with
          | Node.element _ => (update_dom_node node prev_props next_props, none)
          | Node.text _ => (update_dom_text node prev_props next_props, none)
  | some FiberEffect.Deletion => ([], none)
  | none => ([], none)

/-- `Context::commit_work` (`lib.rs:308-369`) over a `child`/`sibling`
chain: process the fiber's own effect, then its child chain (the nearest
dom-bearing ancestor becoming this fiber when it has a dom node), then its
sibling — propagating the first error (`?`) and stopping there, with the
events already emitted retained. -/
def commit_seq (append_ok : Nat → Nat → Bool) (anc : Option Node) :
    List Fiber → List HostEvent × Option CommitError
| [] => ([], none)
| Fiber.mk t p ec dn eff alt kids :: fs =>
  let f := Fiber.mk t p ec dn eff alt kids
  let (evs, err) := commit_effect append_ok anc f
  match err with
  | some e => (evs, some e)
  | none =>
    let child_anc := match dn with
      | some d => some d
      | none => anc
    let (cevs, cerr) := commit_seq append_ok child_anc kids
    match cerr with
    | some e => (evs ++ cevs, some e)
    | none =>
      let (sevs, serr) := commit_seq append_ok anc fs
      (evs ++ cevs ++ sevs, serr)

/-- The host-adapter instance on which every `append_child` succeeds. -/
def alwaysOk : Nat → Nat → Bool := fun _ _ => true

/-- A tree with labelled nodes, abstracting a fiber for the traversal-order
analysis of `perform_unit_of_work`: only the `child`/`sibling`/`parent`
shape matters there. -/
inductive FTree where
| node (label : Nat) (children : List FTree)

/-- The label at the root of a tree. -/
def FTree.labelOf : FTree → Nat
| .node l _ => l

/-- Number of nodes of a forest. -/
def sizeL : List FTree → Nat
| [] => 0
| FTree.node _ kids :: ts => 1 + sizeL kids + sizeL ts

/-- Pre-order label listing of a forest (each root before its children,
children before the following sibling). -/
def preorderL : List FTree → List Nat
| [] => []
| FTree.node l kids :: ts => l :: (preorderL kids ++ preorderL ts)

/-- Number of nodes of a forest carrying a given label. -/
def countL (x : Nat) : List FTree → Nat
| [] => 0
| FTree.node l kids :: ts =>
    (if l = x then 1 else 0) + countL x kids + countL x ts

/-- A traversal location: the fiber currently being processed
(`next_unit_of_work`), its remaining following siblings, and for each
ancestor (nearest first) that ancestor's remaining following siblings.
This is the resumption token of the scheduler: `cur` is the fiber the saved
reference points at, `rest` is its `sibling` chain and `ancestors` records
what the `parent` links reach. -/
structure Loc where
  cur : FTree
  rest : List FTree
  ancestors : List (List FTree)

/-- The `for parent in wip_unit.parents()` walk of `perform_unit_of_work`
(`lib.rs:117-121`): find the closest ancestor that has a sibling and resume
at that sibling. -/
def popToParentSibling : List (List FTree) → Option Loc
| [] => none
| [] :: anc => popToParentSibling anc
| (s :: rs) :: anc => some ⟨s, rs, anc⟩

/-- The successor computation of `perform_unit_of_work` (`lib.rs:104-124`):
the fiber's child if any, else its sibling, else the closest parent's
sibling, else none (pass finished). -/
def nextLoc : Loc → Option Loc
| ⟨FTree.node _ (c :: cs), rest, anc⟩ => some ⟨c, cs, rest :: anc⟩
| ⟨FTree.node _ [], s :: rs, anc⟩ => some ⟨s, rs, anc⟩
| ⟨FTree.node _ [], [], anc⟩ => popToParentSibling anc

/-- Total number of not-yet-visited nodes at a location. -/
def Loc.size (loc : Loc) : Nat :=
  sizeL [loc.cur] + sizeL loc.rest + (loc.ancestors.map sizeL).sum

/-- A forest's node count splits at the head tree. -/
theorem sizeL_cons (t : FTree) (ts : List FTree) :
    sizeL (t :: ts) = sizeL [t] + sizeL ts := by
  cases t with
  | node l kids => simp [sizeL]

/-- Every location holds at least the node being processed. -/
theorem Loc.size_pos (loc : Loc) : 0 < loc.size := by
  rcases loc with ⟨⟨l, kids⟩, rest, anc⟩
  simp [Loc.size, sizeL]

/-- The parent walk resumes at a location holding exactly the nodes the
ancestor sibling lists held.  (Termination measure support for the
traversal functions below.) -/
theorem popToParentSibling_size :
    ∀ (anc : List (List FTree)) (l2 : Loc), popToParentSibling anc = some l2 →
      l2.size = (anc.map sizeL).sum := by
  intro anc
  induction anc with
  | nil => intro l2 hl; simp [popToParentSibling] at hl
  | cons a anc ih =>
    intro l2 hl
    match a with
    | [] =>
      simp only [popToParentSibling] at hl
      simpa [sizeL] using ih l2 hl
    | s :: rs =>
      simp only [popToParentSibling, Option.some.injEq] at hl
      subst hl
      simp [Loc.size, sizeL_cons s rs]

/-- Performing one unit of work consumes exactly one node: the successor
location holds one node fewer.  (Termination measure support.) -/
theorem nextLoc_size :
    ∀ (loc l2 : Loc), nextLoc loc = some l2 → l2.size + 1 = loc.size := by
  intro loc l2 h
  rcases loc with ⟨⟨l, kids⟩, rest, anc⟩
  match kids, rest with
  | c :: cs, rest =>
    simp only [nextLoc, Option.some.injEq] at h
    subst h
    simp [Loc.size, sizeL, sizeL_cons c cs]
    omega
  | [], s :: rs =>
    simp only [nextLoc, Option.some.injEq] at h
    subst h
    simp [Loc.size, sizeL, sizeL_cons s rs]
    omega
  | [], [] =>
    simp only [nextLoc] at h
    have := popToParentSibling_size anc l2 h
    simp [Loc.size, sizeL] at this ⊢
    omega

/-- The labels visited by repeatedly performing units of work from a
location until `perform_unit_of_work` returns none (`lib.rs:87-125`
iterated by the `work_loop` of `lib.rs:70-78` with the yield signal off). -/
def runFrom (loc : Loc) : List Nat :=
  loc.cur.labelOf ::
    (match h : nextLoc loc with
     | none => []
     | some l2 => runFrom l2)
termination_by loc.size
decreasing_by
  have := nextLoc_size loc l2 h
  omega

/-- Iterated unit-of-work stepping: the resumption token after `n` further
units, the token being the sole state threaded between scheduler
invocations. -/
def stepN (s : Option Loc) : Nat → Option Loc
| 0 => s
| n + 1 =>
  match s with
  | none => none
  | some loc => stepN (nextLoc loc) n

/-- The scheduler state carried between entry calls (`Context`,
`lib.rs:33-41`): the work-in-progress root, the last committed root and the
resumption token (`next_unit_of_work`), modelled by a traversal location. -/
structure Context where
  wip_root : Option Fiber
  current_root : Option Fiber
  next_unit_of_work : Option Loc

/-- `Context::commit_root` (`lib.rs:296-306`): when a work-in-progress root
exists, commit its child chain (the nearest dom-bearing ancestor starting as
the root's own dom node, the container) and — only when that commit did not
error (`?`) — promote it to `current_root` and clear `wip_root`. -/
def commit_root (append_ok : Nat → Nat → Bool) (c : Context) :
    Context × List HostEvent × Option CommitError :=
  match c.wip_root with
  | none => (c, [], none)
  | some w =>
    let (evs, err) := commit_seq append_ok w.dom_node w.children
    match err with
    | some e => (c, evs, some e)
    | none => ({ c with current_root := some w, wip_root := none }, evs, none)

/-- The `loop` of `Context::work_loop` (`lib.rs:70-78`): while the yield
signal (`did_timeout`) is off and a next unit of work exists, perform one
unit — modelled at this layer by stepping the resumption token — and count
it. -/
def work_loop_iter (c : Context) (did_timeout : Bool) (count : Nat) :
    Context × Nat :=
  match h : c.next_unit_of_work with
  | none => (c, count)
  | some loc =>
    if did_timeout then (c, count)
    else work_loop_iter { c with next_unit_of_work := nextLoc loc }
           did_timeout (count + 1)
termination_by (c.next_unit_of_work.map Loc.size).getD 0
decreasing_by
  simp only [h]
  cases h2 : nextLoc loc with
  | none =>
    simpa using Loc.size_pos loc
  | some l2 =>
    have := nextLoc_size loc l2 h2
    simp only [Option.map_some', Option.getD_some]
    omega

/-- `Context::work_loop` (`lib.rs:67-85`): run the loop, then — when the
latest `no_next_unit_of_work` flag is set and a work-in-progress root
exists — trigger the commit.  Returns the updated context, the number of
units performed, and the commit's host events and error (propagated by `?`
to the caller). -/
def work_loop (append_ok : Nat → Nat → Bool) (c : Context)
    (did_timeout : Bool) :
    Context × Nat × List HostEvent × Option CommitError :=
  let (c1, count) := work_loop_iter c did_timeout 0
  if c1.next_unit_of_work.isNone ∧ c1.wip_root.isSome then
    let (c2, evs, err) := commit_root append_ok c1
    (c2, count, evs, err)
  else
    (c1, count, [], none)

/-- The starting location of a pass: the root fiber, which has no sibling
and no parent. -/
def rootLoc (t : FTree) : Loc := ⟨t, [], []⟩

/-- Number of fibers in a forest tagged with a given effect. -/
def countEffL (eff : FiberEffect) : List Fiber → Nat
| [] => 0
| Fiber.mk _ _ _ _ e _ kids :: fs =>
    (if e = some eff then 1 else 0) + countEffL eff kids + countEffL eff fs

/-- An attribute map with neither a class name nor a text value. -/
def emptyProps : ElementProps := ⟨none, none⟩

/-- A childless `div` element description. -/
def divElement : Element := .mk "div" (some emptyProps) none

/-- A childless `span` element description. -/
def spanElement : Element := .mk "span" (some emptyProps) none

/-- A text element description with the given text value. -/
def textElement (v : String) : Element :=
  .mk TEXT_ELEMENT (some ⟨none, some v⟩) none

/-- A `div` element description with the given children. -/
def divWith (kids : List Element) : Element :=
  .mk "div" (some emptyProps) (some kids)

/-- A host container element, as handed to `render` (`lib.rs:407`). -/
def containerNode : Node := .element 0

/-- An already-committed childless `div` fiber, host node attached. -/
def oldDivFiber : Fiber :=
  .mk "div" (some emptyProps) none (some (.element 5)) none none []

/-- A fiber about to be reconciled whose alternate has three `div` children
while its own pending children list holds a single `div` (the spec's
shrinking-children scenario, §8). -/
def shrinkFiber : Fiber :=
  .mk "p" (some emptyProps) (some [divElement]) (some (.element 4)) none
    (some (.mk "p" (some emptyProps) none (some (.element 4)) none none
      [oldDivFiber, oldDivFiber, oldDivFiber])) []

/-- A fiber about to be reconciled whose alternate has one `div` child while
its pending children list holds a single `span`: a positional type change. -/
def typeChangeFiber : Fiber :=
  .mk FIBER_ROOT none (some [spanElement]) (some containerNode) none
    (some (.mk FIBER_ROOT none (some [divElement]) (some containerNode) none
      none [oldDivFiber])) []

/-- A fiber about to be reconciled whose alternate's single `div` child
positionally matches its single pending `div` element: the reuse case. -/
def updateCaseFiber : Fiber :=
  .mk FIBER_ROOT none (some [divElement]) (some containerNode) none
    (some (.mk FIBER_ROOT none none none none none [oldDivFiber])) []

/-- The new-generation child fiber the reconciler produces for
`updateCaseFiber`: tagged `Update`, linked to the old child, inheriting its
host node. -/
def updateCaseChild : ChildFiber :=
  { element_type := "div", props := some emptyProps, element_children := none,
    dom_node := some (.element 5), alternate := some oldDivFiber,
    effect := FiberEffect.Update }

/-- Correspondence between a freshly built fiber generation and the element
list it was built from: same tags, same (present) attributes, same stored
pending children, a host node attached, and children corresponding in
turn.  This is the invariant an initial `buildChildren` run establishes and
a re-render of the identical tree consumes. -/
def MirrorsL : List Fiber → List Element → Prop
| [], [] => True
| Fiber.mk t p ec dn _ _ kids :: fs, Element.mk et ep ekids :: es =>
    t = et ∧ p = ep ∧ p.isSome = true ∧ ec = ekids ∧ dn.isSome = true ∧
    (match ekids, kids with
     | none, [] => True
     | none, _ :: _ => False
     | some els, kids2 => MirrorsL kids2 els) ∧
    MirrorsL fs es
| _, _ => False
termination_by fs es => sizeOf es

/-- Shape of a re-rendered generation built against an identical committed
generation: every fiber is tagged `Update`, keeps a host node, and its
alternate carries exactly its own props — so the commit patch step finds
nothing changed anywhere. -/
def UpdShadowL : List Fiber → Prop
| [] => True
| Fiber.mk _ p _ dn eff alt kids :: fs =>
    eff = some FiberEffect.Update ∧ dn.isSome = true ∧
    (∃ props a, p = some props ∧ alt = some a ∧ a.props = some props) ∧
    UpdShadowL kids ∧ UpdShadowL fs

/-- The relation between a pending children field and the fiber chain built
from it: a `None` field yields an empty chain, a `Some` list yields a
mirroring chain. -/
def ChainMirrors (ck : Option (List Element)) (fs : List Fiber) : Prop :=
  match ck with
  | none => fs = []
  | some els => MirrorsL fs els

/-- A freshly built childless `div` fiber awaiting `Placement` commit. -/
def placedDivFiber : Fiber :=
  .mk "div" (some emptyProps) none (some (.element 5))
    (some FiberEffect.Placement) none []

/-- A finished work-in-progress root holding one `Placement` child. -/
def commitDemoRoot : Fiber :=
  .mk FIBER_ROOT none none (some containerNode) none none [placedDivFiber]

/-- The finished work-in-progress root of a render pass, when it succeeded
(a placeholder fiber otherwise). -/
def passRoot (r : Except Panic (Nat × Fiber × List HostEvent)) : Fiber :=
  match r with
  | .ok (_, f, _) => f
  | .error _ => Fiber.mk "" none none none none none []

/-- The host events of a render pass, when it succeeded. -/
def passEvents (r : Except Panic (Nat × Fiber × List HostEvent)) :
    List HostEvent :=
  match r with
  | .ok (_, _, evs) => evs
  | .error _ => []

/-- C1: the spec asserts the shrinking-children walk is bounds-checked, with
one `Update` at position 0 and two `Unmount`s for the surplus positions; in
the source the loop condition (`lib.rs:196`) keeps the walk alive while old
children remain, but the body indexes the new children list unconditionally
(`lib.rs:197`), so a parent whose alternate has 3 children and whose new
children list has 1 matching child panics with an out-of-range index at
position 1 instead. -/
theorem C1_shrinking_children_panics :
    reconcile_children shrinkFiber = .error (.indexOutOfBounds 1) := by
  simp [reconcile_children, shrinkFiber, oldDivFiber, divElement, emptyProps,
    reconcileLoop, pairChild, Fiber.element_children, Fiber.alternate,
    Fiber.children, Fiber.element_type, Element.element_type, Element.props,
    Element.children, Fiber.dom_node]

/-- The class-name patch emits no `removeChild` call. -/
theorem update_dom_node_no_remove (n : Node) (p : Option ElementProps)
    (q : ElementProps) :
    (update_dom_node n p q).filter HostEvent.isRemoveChild = [] := by
  simp only [update_dom_node]
  cases p.bind (fun x => x.class_name) with
  | none =>
    cases q.class_name with
    | none => rfl
    | some v => rfl
  | some u =>
    cases q.class_name with
    | none => rfl
    | some v =>
      by_cases h : u ≠ v <;> simp [h, HostEvent.isRemoveChild]

/-- The text-value patch emits no `removeChild` call. -/
theorem update_dom_text_no_remove (n : Node) (p : Option ElementProps)
    (q : ElementProps) :
    (update_dom_text n p q).filter HostEvent.isRemoveChild = [] := by
  simp only [update_dom_text]
  cases p.bind (fun x => x.node_value) with
  | none =>
    cases q.node_value with
    | none => rfl
    | some v => rfl
  | some u =>
    cases q.node_value with
    | none => rfl
    | some v =>
      by_cases h : u ≠ v <;> simp [h, HostEvent.isRemoveChild]

/-- No effect arm of the committer emits a `removeChild` call. -/
theorem commit_effect_no_remove (ok : Nat → Nat → Bool) (anc : Option Node)
    (f : Fiber) :
    ((commit_effect ok anc f).1.filter HostEvent.isRemoveChild) = [] := by
  rcases f with ⟨t, p, ec, dn, eff, alt, kids⟩
  match eff with
  | none => rfl
  | some FiberEffect.Deletion => rfl
  | some FiberEffect.Placement =>
    simp only [commit_effect, commit_node_append, Fiber.effect, Fiber.dom_node]
    match dn, anc with
    | none, _ => rfl
    | some d, none => rfl
    | some d, some a =>
      match a, d with
      | Node.element pid, Node.element cid =>
        by_cases h : ok pid cid <;> simp [h, HostEvent.isRemoveChild]
      | Node.element pid, Node.text cid =>
        by_cases h : ok pid cid <;> simp [h, HostEvent.isRemoveChild]
      | Node.text pid, Node.element cid => rfl
      | Node.text pid, Node.text cid => rfl
  | some FiberEffect.Update =>
    simp only [commit_effect, Fiber.effect, Fiber.dom_node, Fiber.alternate,
      Fiber.props]
    match dn with
    | none => rfl
    | some node =>
      match alt with
      | none => rfl
      | some alternate =>
        match p with
        | none => rfl
        | some next_props =>
          match node with
          | Node.element i => exact update_dom_node_no_remove _ _ _
          | Node.text i => exact update_dom_text_no_remove _ _ _

/-- The committer never emits a `removeChild` call, whatever the tree and
the adapter. -/
theorem commit_seq_no_remove (ok : Nat → Nat → Bool) :
    ∀ (anc : Option Node) (fs : List Fiber),
      ((commit_seq ok anc fs).1.filter HostEvent.isRemoveChild) = []
| anc, [] => by
  simp [commit_seq]
| anc, Fiber.mk t p ec dn eff alt kids :: fs => by
  have ihk := commit_seq_no_remove ok
    (match dn with | some d => some d | none => anc) kids
  have ihs := commit_seq_no_remove ok anc fs
  have he := commit_effect_no_remove ok anc (Fiber.mk t p ec dn eff alt kids)
  rw [commit_seq.eq_def]
  rcases h1 : commit_effect ok anc (Fiber.mk t p ec dn eff alt kids)
    with ⟨evs, err⟩
  rw [h1] at he
  simp only at he
  simp only [h1]
  match err with
  | some e => simpa using he
  | none =>
    generalize hca : (match dn with | some d => some d | none => anc) = ca
      at ihk ⊢
    cases hc : (commit_seq ok ca kids).2 with
    | some e =>
      simp only [hc, List.filter_append, he, ihk]
      simp
    | none =>
      simp only [hc, List.filter_append, he, ihk, ihs]
      simp
termination_by anc fs => sizeOf fs

/-- C3: the spec asserts the committer removes an `Unmount` (`Deletion`)
fiber's host node via the host adapter's removeChild and detaches the fiber;
in the source the `Deletion` arm of `commit_work` (`lib.rs:359-361`) is
empty and `remove_child` is called nowhere: whatever the tree and the
adapter, the commit trace contains no `removeChild` call, and the effect arm
of a `Deletion`-tagged fiber applies no host mutation and reports no
error. -/
theorem C3_unmount_commit_is_empty :
    (∀ (ok : Nat → Nat → Bool) (anc : Option Node) (fs : List Fiber),
      ((commit_seq ok anc fs).1.filter HostEvent.isRemoveChild) = []) ∧
    (∀ (ok : Nat → Nat → Bool) (anc : Option Node) (t : String)
      (p : Option ElementProps) (ec : Option (List Element))
      (dn : Option Node) (alt : Option Fiber) (kids : List Fiber),
      commit_effect ok anc
        (Fiber.mk t p ec dn (some FiberEffect.Deletion) alt kids) =
          ([], none)) := by
  constructor
  · intro ok anc fs
    exact commit_seq_no_remove ok anc fs
  · intro ok anc t p ec dn alt kids
    rfl

/-- C8 counterexample: the claim says a missing expected attribute never
raises a failure; but a text fiber whose attributes contain no text value
panics in `create_dom_node` (`node_value().unwrap()`, `lib.rs:131`) as soon
as the engine processes it. -/
theorem C8_missing_text_value_panics :
    render_pass 1 (Element.mk TEXT_ELEMENT (some ⟨none, none⟩) none) none
      containerNode = .error .nodeValueUnwrap := by
  simp [render_pass, buildChildren, altChildren, pairChild, create_dom_node,
    containerNode, TEXT_ELEMENT, Element.element_type, Element.props,
    Element.children]

/-- C8 amended: during patching (`update_dom_node`/`update_dom_text`,
`lib.rs:142-174`) a missing class name or text value is a no-op, never an
error; but `create_dom_node` (`lib.rs:127-140`) unwraps, so a fiber with no
attribute map at all, or a text fiber with no text value, panics when its
host node is created. -/
theorem C8_missing_attribute_handling :
    (∀ (n : Node) (p : Option ElementProps) (c : Option String),
      update_dom_text n p ⟨c, none⟩ = []) ∧
    (∀ (n : Node) (p : Option ElementProps) (v : Option String),
      update_dom_node n p ⟨none, v⟩ = []) ∧
    (∀ (i : Nat) (t : String), create_dom_node i t none = .error .propsUnwrap) ∧
    (∀ (i : Nat) (c : Option String),
      create_dom_node i TEXT_ELEMENT (some ⟨c, none⟩) = .error .nodeValueUnwrap) := by
  refine ⟨?_, ?_, ?_, ?_⟩
  · intro n p c
    simp only [update_dom_text]
    cases p.bind (fun x => x.node_value) <;> rfl
  · intro n p v
    simp only [update_dom_node]
    cases p.bind (fun x => x.class_name) <;> rfl
  · intro i t
    rfl
  · intro i c
    simp [create_dom_node, TEXT_ELEMENT]

/-- C2: the claim says a type-mismatched (or surplus) old child fiber is
tagged `Unmount` AND appended to the tree's pending-deletions list so the
committer can reach it.  The first half holds: `set_effect(Deletion)` is
called on the old child (`lib.rs:259`).  But no pending-deletions list
exists — the push is the unfulfilled `TODO` of `lib.rs:260`, the `Context`
struct (`lib.rs:34-41`) has no such field, and the `Deletion` arm of the
committer is empty — so in a full type-change render (a committed `div`
replaced by a `span`) the second pass commits only the replacement's
`appendChild` and never issues any removal for the old child. -/
theorem C2_deletion_collected_nowhere :
    reconcile_children typeChangeFiber =
      .ok ([{ element_type := "span", props := some emptyProps,
              element_children := none, dom_node := none, alternate := none,
              effect := FiberEffect.Placement }],
           [oldDivFiber.set_effect FiberEffect.Deletion]) ∧
    commit_seq alwaysOk (some containerNode)
        (passRoot (render_pass 2 spanElement
          (some (passRoot (render_pass 1 divElement none containerNode)))
          containerNode)).children =
      ([HostEvent.appendChild 0 2], none) := by
  constructor
  · simp [reconcile_children, typeChangeFiber, oldDivFiber, divElement,
      spanElement, emptyProps, reconcileLoop, pairChild, Fiber.set_effect,
      Fiber.element_children, Fiber.alternate, Fiber.children,
      Fiber.element_type, Element.element_type, Element.props,
      Element.children, Fiber.dom_node, FIBER_ROOT, containerNode]
  · simp [render_pass, buildChildren, altChildren, pairChild, create_dom_node,
      update_dom_node, passRoot, divElement, spanElement, emptyProps,
      containerNode, TEXT_ELEMENT, FIBER_ROOT, Element.element_type,
      Element.props, Element.children, Fiber.element_type, Fiber.children,
      Fiber.dom_node, Fiber.props, Fiber.alternate, Fiber.effect,
      commit_seq, commit_effect, commit_node_append, alwaysOk,
      update_dom_text, Node.id]

/-- Evaluation step: the initial build of a lone text child with value
`"A"`, allocator at 2. -/
theorem build_step_textA :
    buildChildren 2
      (some [Element.mk "TEXT_ELEMENT" (some ⟨none, some "A"⟩) none]) [] =
    .ok (3,
      [Fiber.mk "TEXT_ELEMENT" (some ⟨none, some "A"⟩) none
        (some (Node.text 2)) (some FiberEffect.Placement) none []],
      [HostEvent.createTextNode 2 "A"]) := by
  simp [buildChildren, pairChild, create_dom_node, altChildren, TEXT_ELEMENT,
    Element.element_type, Element.props, Element.children]

/-- Evaluation step: the initial build of a `div` holding one text child,
allocator at 1. -/
theorem build_step_divA :
    buildChildren 1
      (some [Element.mk "div" (some ⟨none, none⟩)
        (some [Element.mk "TEXT_ELEMENT" (some ⟨none, some "A"⟩) none])]) [] =
    .ok (3,
      [Fiber.mk "div" (some ⟨none, none⟩)
        (some [Element.mk "TEXT_ELEMENT" (some ⟨none, some "A"⟩) none])
        (some (Node.element 1)) (some FiberEffect.Placement) none
        [Fiber.mk "TEXT_ELEMENT" (some ⟨none, some "A"⟩) none
          (some (Node.text 2)) (some FiberEffect.Placement) none []]],
      [HostEvent.createElement 1 "div", HostEvent.createTextNode 2 "A"]) := by
  simp [buildChildren, build_step_textA, pairChild, create_dom_node,
    update_dom_node, altChildren, TEXT_ELEMENT, Element.element_type,
    Element.props, Element.children, Node.id]

/-- Evaluation step: rebuilding the text child with value `"B"` against its
committed `"A"` alternate: a positional tag match, so an `Update` fiber
inheriting the text node. -/
theorem build_step_textB :
    buildChildren 3
      (some [Element.mk "TEXT_ELEMENT" (some ⟨none, some "B"⟩) none])
      [Fiber.mk "TEXT_ELEMENT" (some ⟨none, some "A"⟩) none
        (some (Node.text 2)) (some FiberEffect.Placement) none []] =
    .ok (3,
      [Fiber.mk "TEXT_ELEMENT" (some ⟨none, some "B"⟩) none
        (some (Node.text 2)) (some FiberEffect.Update)
        (some (Fiber.mk "TEXT_ELEMENT" (some ⟨none, some "A"⟩) none
          (some (Node.text 2)) (some FiberEffect.Placement) none [])) []],
      []) := by
  simp [buildChildren, pairChild, create_dom_node, altChildren, TEXT_ELEMENT,
    Element.element_type, Element.props, Element.children, Fiber.element_type,
    Fiber.dom_node, Fiber.children, Fiber.alternate]

/-- Evaluation step: rebuilding the `div` subtree with the text changed to
`"B"` against its committed generation: both positions match by tag, so both
fibers are tagged `Update`. -/
theorem build_step_divB :
    buildChildren 3
      (some [Element.mk "div" (some ⟨none, none⟩)
        (some [Element.mk "TEXT_ELEMENT" (some ⟨none, some "B"⟩) none])])
      [Fiber.mk "div" (some ⟨none, none⟩)
        (some [Element.mk "TEXT_ELEMENT" (some ⟨none, some "A"⟩) none])
        (some (Node.element 1)) (some FiberEffect.Placement) none
        [Fiber.mk "TEXT_ELEMENT" (some ⟨none, some "A"⟩) none
          (some (Node.text 2)) (some FiberEffect.Placement) none []]] =
    .ok (3,
      [Fiber.mk "div" (some ⟨none, none⟩)
        (some [Element.mk "TEXT_ELEMENT" (some ⟨none, some "B"⟩) none])
        (some (Node.element 1)) (some FiberEffect.Update)
        (some (Fiber.mk "div" (some ⟨none, none⟩)
          (some [Element.mk "TEXT_ELEMENT" (some ⟨none, some "A"⟩) none])
          (some (Node.element 1)) (some FiberEffect.Placement) none
          [Fiber.mk "TEXT_ELEMENT" (some ⟨none, some "A"⟩) none
            (some (Node.text 2)) (some FiberEffect.Placement) none []]))
        [Fiber.mk "TEXT_ELEMENT" (some ⟨none, some "B"⟩) none
          (some (Node.text 2)) (some FiberEffect.Update)
          (some (Fiber.mk "TEXT_ELEMENT" (some ⟨none, some "A"⟩) none
            (some (Node.text 2)) (some FiberEffect.Placement) none [])) []]],
      []) := by
  simp [buildChildren, build_step_textB, pairChild, create_dom_node,
    altChildren, TEXT_ELEMENT, Element.element_type, Element.props,
    Element.children, Fiber.element_type, Fiber.dom_node, Fiber.children,
    Fiber.alternate]

/-- Evaluation: the full first render pass of `div[text "A"]` into the
container, from a fresh context. -/
theorem pass1_divA_eval :
    render_pass 1 (divWith [textElement "A"]) none containerNode =
    .ok (3,
      Fiber.mk "ROOT" none
        (some [Element.mk "div" (some ⟨none, none⟩)
          (some [Element.mk "TEXT_ELEMENT" (some ⟨none, some "A"⟩) none])])
        (some (Node.element 0)) none none
        [Fiber.mk "div" (some ⟨none, none⟩)
          (some [Element.mk "TEXT_ELEMENT" (some ⟨none, some "A"⟩) none])
          (some (Node.element 1)) (some FiberEffect.Placement) none
          [Fiber.mk "TEXT_ELEMENT" (some ⟨none, some "A"⟩) none
            (some (Node.text 2)) (some FiberEffect.Placement) none []]],
      [HostEvent.createElement 1 "div", HostEvent.createTextNode 2 "A"]) := by
  have h1 : divWith [textElement "A"] = Element.mk "div" (some ⟨none, none⟩)
      (some [Element.mk "TEXT_ELEMENT" (some ⟨none, some "A"⟩) none]) := rfl
  have h2 : containerNode = Node.element 0 := rfl
  rw [h1, h2, render_pass.eq_def]
  have h3 : altChildren none = [] := rfl
  rw [h3, build_step_divA]
  rfl

/-- Evaluation: the second render pass, `div[text "B"]` against the
committed first generation: no node creations, every fiber reused as an
`Update` linked to its alternate. -/
theorem pass2_divB_eval :
    render_pass 3 (divWith [textElement "B"])
      (some (Fiber.mk "ROOT" none
        (some [Element.mk "div" (some ⟨none, none⟩)
          (some [Element.mk "TEXT_ELEMENT" (some ⟨none, some "A"⟩) none])])
        (some (Node.element 0)) none none
        [Fiber.mk "div" (some ⟨none, none⟩)
          (some [Element.mk "TEXT_ELEMENT" (some ⟨none, some "A"⟩) none])
          (some (Node.element 1)) (some FiberEffect.Placement) none
          [Fiber.mk "TEXT_ELEMENT" (some ⟨none, some "A"⟩) none
            (some (Node.text 2)) (some FiberEffect.Placement) none []]]))
      containerNode =
    .ok (3,
      Fiber.mk "ROOT" none
        (some [Element.mk "div" (some ⟨none, none⟩)
          (some [Element.mk "TEXT_ELEMENT" (some ⟨none, some "B"⟩) none])])
        (some (Node.element 0)) none
        (some (Fiber.mk "ROOT" none
          (some [Element.mk "div" (some ⟨none, none⟩)
            (some [Element.mk "TEXT_ELEMENT" (some ⟨none, some "A"⟩) none])])
          (some (Node.element 0)) none none
          [Fiber.mk "div" (some ⟨none, none⟩)
            (some [Element.mk "TEXT_ELEMENT" (some ⟨none, some "A"⟩) none])
            (some (Node.element 1)) (some FiberEffect.Placement) none
            [Fiber.mk "TEXT_ELEMENT" (some ⟨none, some "A"⟩) none
              (some (Node.text 2)) (some FiberEffect.Placement) none []]]))
        [Fiber.mk "div" (some ⟨none, none⟩)
          (some [Element.mk "TEXT_ELEMENT" (some ⟨none, some "B"⟩) none])
          (some (Node.element 1)) (some FiberEffect.Update)
          (some (Fiber.mk "div" (some ⟨none, none⟩)
            (some [Element.mk "TEXT_ELEMENT" (some ⟨none, some "A"⟩) none])
            (some (Node.element 1)) (some FiberEffect.Placement) none
            [Fiber.mk "TEXT_ELEMENT" (some ⟨none, some "A"⟩) none
              (some (Node.text 2)) (some FiberEffect.Placement) none []]))
          [Fiber.mk "TEXT_ELEMENT" (some ⟨none, some "B"⟩) none
            (some (Node.text 2)) (some FiberEffect.Update)
            (some (Fiber.mk "TEXT_ELEMENT" (some ⟨none, some "A"⟩) none
              (some (Node.text 2)) (some FiberEffect.Placement) none [])) []]],
      []) := by
  have h1 : divWith [textElement "B"] = Element.mk "div" (some ⟨none, none⟩)
      (some [Element.mk "TEXT_ELEMENT" (some ⟨none, some "B"⟩) none]) := rfl
  have h2 : containerNode = Node.element 0 := rfl
  rw [h1, h2, render_pass.eq_def]
  have h3 : altChildren (some (Fiber.mk "ROOT" none
      (some [Element.mk "div" (some ⟨none, none⟩)
        (some [Element.mk "TEXT_ELEMENT" (some ⟨none, some "A"⟩) none])])
      (some (Node.element 0)) none none
      [Fiber.mk "div" (some ⟨none, none⟩)
        (some [Element.mk "TEXT_ELEMENT" (some ⟨none, some "A"⟩) none])
        (some (Node.element 1)) (some FiberEffect.Placement) none
        [Fiber.mk "TEXT_ELEMENT" (some ⟨none, some "A"⟩) none
          (some (Node.text 2)) (some FiberEffect.Placement) none []]])) =
      [Fiber.mk "div" (some ⟨none, none⟩)
        (some [Element.mk "TEXT_ELEMENT" (some ⟨none, some "A"⟩) none])
        (some (Node.element 1)) (some FiberEffect.Placement) none
        [Fiber.mk "TEXT_ELEMENT" (some ⟨none, some "A"⟩) none
          (some (Node.text 2)) (some FiberEffect.Placement) none []]] := rfl
  rw [h3, build_step_divB]
  rfl

/-- C7: the claim says a text-only change commits exactly one `Update`
effect; but the reconciler tags every positionally matched fiber `Update`
unconditionally (`lib.rs:237`; the `TODO` of `lib.rs:236` notes the effect
should be set only when props really changed), so rendering `div[text A]`
then `div[text B]` leaves two `Update` fibers (the unchanged `div` and the
text) in the committed second generation — though indeed zero
`Placement`/`Deletion` effects. -/
theorem C7_update_on_every_matched_fiber :
    (render_pass 1 (divWith [textElement "A"]) none containerNode).isOk = true ∧
    (render_pass 3 (divWith [textElement "B"])
      (some (passRoot (render_pass 1 (divWith [textElement "A"]) none
        containerNode))) containerNode).isOk = true ∧
    passEvents (render_pass 3 (divWith [textElement "B"])
      (some (passRoot (render_pass 1 (divWith [textElement "A"]) none
        containerNode))) containerNode) = [] ∧
    countEffL FiberEffect.Update
      (passRoot (render_pass 3 (divWith [textElement "B"])
        (some (passRoot (render_pass 1 (divWith [textElement "A"]) none
          containerNode))) containerNode)).children = 2 ∧
    countEffL FiberEffect.Placement
      (passRoot (render_pass 3 (divWith [textElement "B"])
        (some (passRoot (render_pass 1 (divWith [textElement "A"]) none
          containerNode))) containerNode)).children = 0 ∧
    countEffL FiberEffect.Deletion
      (passRoot (render_pass 3 (divWith [textElement "B"])
        (some (passRoot (render_pass 1 (divWith [textElement "A"]) none
          containerNode))) containerNode)).children = 0 := by
  have hp : passRoot (render_pass 1 (divWith [textElement "A"]) none
      containerNode) =
      Fiber.mk "ROOT" none
        (some [Element.mk "div" (some ⟨none, none⟩)
          (some [Element.mk "TEXT_ELEMENT" (some ⟨none, some "A"⟩) none])])
        (some (Node.element 0)) none none
        [Fiber.mk "div" (some ⟨none, none⟩)
          (some [Element.mk "TEXT_ELEMENT" (some ⟨none, some "A"⟩) none])
          (some (Node.element 1)) (some FiberEffect.Placement) none
          [Fiber.mk "TEXT_ELEMENT" (some ⟨none, some "A"⟩) none
            (some (Node.text 2)) (some FiberEffect.Placement) none []]] := by
    rw [pass1_divA_eval]
    rfl
  refine ⟨?_, ?_, ?_, ?_, ?_, ?_⟩
  · rw [pass1_divA_eval]
    rfl
  · rw [hp, pass2_divB_eval]
    rfl
  · rw [hp, pass2_divB_eval]
    rfl
  · rw [hp, pass2_divB_eval]
    simp [passRoot, countEffL, Fiber.children]
  · rw [hp, pass2_divB_eval]
    simp [passRoot, countEffL, Fiber.children]
  · rw [hp, pass2_divB_eval]
    simp [passRoot, countEffL, Fiber.children]

/-- Every `Update`-tagged fiber produced by the reconciliation loop comes
from a positional tag match: at its position, the new element and the old
child fiber exist, their tags agree, and the new fiber carries the new
element's props and pending children, takes the old child as alternate, and
inherits its dom node (`lib.rs:210-239`). -/
theorem reconcileLoop_update_spec (cs : List Element) (children_len : Nat) :
    ∀ (i : Nat) (old : List Fiber),
      ∀ (fibers : List ChildFiber) (tagged : List Fiber),
        reconcileLoop (some cs) children_len i old = .ok (fibers, tagged) →
        ∀ (j : Nat) (f : ChildFiber),
          fibers.get? j = some f → f.effect = FiberEffect.Update →
          ∃ el o, cs.get? (i + j) = some el ∧ old.get? j = some o ∧
            o.element_type = el.element_type ∧
            f.element_type = o.element_type ∧ f.props = el.props ∧
            f.element_children = el.children ∧ f.dom_node = o.dom_node ∧
            f.alternate = some o := by
  refine reconcileLoop.induct (some cs) children_len
    (motive := fun i old =>
      ∀ (fibers : List ChildFiber) (tagged : List Fiber),
        reconcileLoop (some cs) children_len i old = .ok (fibers, tagged) →
        ∀ (j : Nat) (f : ChildFiber),
          fibers.get? j = some f → f.effect = FiberEffect.Update →
          ∃ el o, cs.get? (i + j) = some el ∧ old.get? j = some o ∧
            o.element_type = el.element_type ∧
            f.element_type = o.element_type ∧ f.props = el.props ∧
            f.element_children = el.children ∧ f.dom_node = o.dom_node ∧
            f.alternate = some o)
    ?_ ?_ ?_ ?_ ?_
  · intro i old hcond hnone
    exact Option.noConfusion hnone
  · intro i old hcond cs2 hcs hget fibers tagged hok
    injection hcs with hcs2
    subst hcs2
    rw [reconcileLoop.eq_def] at hok
    rw [dif_pos hcond] at hok
    simp only [hget] at hok
    simp at hok
  · intro i old hcond cs2 hcs child_element hget p hrec ih fibers tagged hok
    injection hcs with hcs2
    subst hcs2
    rw [reconcileLoop.eq_def] at hok
    rw [dif_pos hcond] at hok
    simp only [hget, hrec] at hok
    simp at hok
  · intro i old hcond cs2 hcs child_element hget rest rest_tagged hrec ih
      fibers tagged hok
    injection hcs with hcs2
    subst hcs2
    rw [reconcileLoop.eq_def] at hok
    rw [dif_pos hcond] at hok
    simp only [hget, hrec, Except.ok.injEq, Prod.mk.injEq] at hok
    obtain ⟨hfib, htag⟩ := hok
    intro j f hj heff
    rw [← hfib] at hj
    match j with
    | 0 =>
      simp only [List.get?] at hj
      injection hj with hf
      subst hf
      rw [pairChild.eq_def] at heff
      match hhd : old.head? with
      | none =>
        rw [hhd] at heff
        simp at heff
      | some o =>
        rw [hhd] at heff
        by_cases hty : o.element_type = child_element.element_type
        · refine ⟨child_element, o, ?_, ?_, hty, ?_⟩
          · simpa using hget
          · match old, hhd with
            | o2 :: t, hhd =>
              injection hhd with h2
              subst h2
              rfl
          · simp [pairChild, hty]
        · simp [hty] at heff
    | Nat.succ j2 =>
      simp only [List.get?] at hj
      have := ih rest rest_tagged hrec j2 f hj heff
      obtain ⟨el, o, hel, ho, h1, h2, h3, h4, h5, h6⟩ := this
      refine ⟨el, o, ?_, ?_, h1, h2, h3, h4, h5, h6⟩
      · have harith : i + 1 + j2 = i + (j2 + 1) := by omega
        rw [harith] at hel
        exact hel
      · match old with
        | [] => simp at ho
        | o2 :: t => exact ho
  · intro i old hcond fibers tagged hok
    rw [reconcileLoop.eq_def] at hok
    rw [dif_neg hcond] at hok
    simp only [Except.ok.injEq, Prod.mk.injEq] at hok
    obtain ⟨hfib, htag⟩ := hok
    intro j f hj heff
    rw [← hfib] at hj
    simp at hj

/-- Helper: the reconciliation loop run with no pending children vector
produces no new fibers when it returns at all. -/
theorem reconcileLoop_none_ok (children_len i : Nat) (old : List Fiber)
    (fibers : List ChildFiber) (tagged : List Fiber) :
    reconcileLoop none children_len i old = .ok (fibers, tagged) →
    fibers = [] := by
  intro hok
  rw [reconcileLoop.eq_def] at hok
  split at hok
  · simp at hok
  · simp only [Except.ok.injEq, Prod.mk.injEq] at hok
    exact hok.1.symm

/-- C4: every fiber the reconciler tags `Update` comes from a positional tag
match: the pending element and the alternate's child at the same position
exist and agree on tag, and the new fiber carries the new element's
attributes and pending children, takes that old child (a fiber of the
previously committed generation, handed in through `alternate`) as its own
alternate, and inherits its host node (`lib.rs:210-239`). -/
theorem C4_update_invariant :
    ∀ (fiber : Fiber) (fibers : List ChildFiber) (tagged : List Fiber)
      (j : Nat) (f : ChildFiber),
      reconcile_children fiber = .ok (fibers, tagged) →
      fibers.get? j = some f → f.effect = FiberEffect.Update →
      ∃ cs el alt o,
        fiber.element_children = some cs ∧ cs.get? j = some el ∧
        fiber.alternate = some alt ∧ alt.children.get? j = some o ∧
        o.element_type = el.element_type ∧
        f.element_type = o.element_type ∧ f.props = el.props ∧
        f.element_children = el.children ∧ f.dom_node = o.dom_node ∧
        f.alternate = some o := by
  intro fiber fibers tagged j f hok hj heff
  rw [reconcile_children] at hok
  cases hec : fiber.element_children with
  | none =>
    rw [hec] at hok
    have := reconcileLoop_none_ok _ 0 _ fibers tagged hok
    subst this
    simp at hj
  | some cs =>
    rw [hec] at hok
    cases halt : fiber.alternate with
    | none =>
      rw [halt] at hok
      obtain ⟨el, o, hel, ho, hrest⟩ :=
        reconcileLoop_update_spec cs cs.length 0 [] fibers tagged hok j f hj heff
      simp at ho
    | some alt =>
      rw [halt] at hok
      obtain ⟨el, o, hel, ho, h1, h2, h3, h4, h5, h6⟩ :=
        reconcileLoop_update_spec cs cs.length 0 alt.children fibers tagged
          hok j f hj heff
      rw [Nat.zero_add] at hel
      exact ⟨cs, el, alt, o, rfl, hel, rfl, ho, h1, h2, h3, h4, h5, h6⟩

/-- C4 witness: the reuse case of `updateCaseFiber` instantiates the
invariant at position 0. -/
theorem C4_update_invariant_witness :
    ∃ cs el alt o,
      updateCaseFiber.element_children = some cs ∧ cs.get? 0 = some el ∧
      updateCaseFiber.alternate = some alt ∧ alt.children.get? 0 = some o ∧
      o.element_type = el.element_type ∧
      updateCaseChild.element_type = o.element_type ∧
      updateCaseChild.props = el.props ∧
      updateCaseChild.element_children = el.children ∧
      updateCaseChild.dom_node = o.dom_node ∧
      updateCaseChild.alternate = some o :=
  C4_update_invariant updateCaseFiber [updateCaseChild] [] 0 updateCaseChild
    (by
      simp [reconcile_children, reconcileLoop, pairChild, updateCaseFiber,
        updateCaseChild, divElement, oldDivFiber, emptyProps, containerNode,
        FIBER_ROOT, Fiber.element_children, Fiber.alternate, Fiber.children,
        Fiber.element_type, Fiber.dom_node, Element.element_type,
        Element.props, Element.children])
    (by rfl)
    (by rfl)

/-- A forest's pre-order listing splits at the head tree. -/
theorem preorderL_cons (t : FTree) (ts : List FTree) :
    preorderL (t :: ts) = preorderL [t] ++ preorderL ts := by
  cases t with
  | node l kids => simp [preorderL]

/-- When the parent walk finds no resumption point, the ancestor sibling
lists are all exhausted. -/
theorem popToParentSibling_none :
    ∀ (anc : List (List FTree)), popToParentSibling anc = none →
      ((anc.map preorderL).flatten = [] ∧ (anc.map sizeL).sum = 0) := by
  intro anc
  induction anc with
  | nil => intro h; simp
  | cons a anc ih =>
    intro h
    match a with
    | [] =>
      simp only [popToParentSibling] at h
      simpa [preorderL, sizeL] using ih h
    | s :: rs =>
      simp [popToParentSibling] at h

/-- When the parent walk resumes, the resumption location holds exactly the
nodes of the ancestor sibling lists, in order. -/
theorem popToParentSibling_preorder :
    ∀ (anc : List (List FTree)) (l2 : Loc), popToParentSibling anc = some l2 →
      preorderL [l2.cur] ++ preorderL l2.rest ++
        (l2.ancestors.map preorderL).flatten = (anc.map preorderL).flatten := by
  intro anc
  induction anc with
  | nil => intro l2 h; simp [popToParentSibling] at h
  | cons a anc ih =>
    intro l2 h
    match a with
    | [] =>
      simp only [popToParentSibling] at h
      simpa [preorderL] using ih l2 h
    | s :: rs =>
      simp only [popToParentSibling, Option.some.injEq] at h
      subst h
      simp only [List.map, List.flatten]
      rw [preorderL_cons s rs]

/-- Unit equation: a location whose successor is exhausted visits only its
current fiber. -/
theorem runFrom_none (loc : Loc) (h : nextLoc loc = none) :
    runFrom loc = [loc.cur.labelOf] := by
  rw [runFrom]
  split
  · rfl
  · rename_i l2 heq
    rw [h] at heq
    cases heq

/-- Unit equation: a location with a successor visits its current fiber and
then continues from the successor. -/
theorem runFrom_some (loc l2 : Loc) (h : nextLoc loc = some l2) :
    runFrom loc = loc.cur.labelOf :: runFrom l2 := by
  rw [runFrom]
  split
  · rename_i heq
    rw [h] at heq
    cases heq
  · rename_i l3 heq
    have h2 : some l3 = some l2 := heq.symm.trans h
    injection h2 with h3
    rw [h3]

/-- The visit sequence from any location is the pre-order listing of the
current subtree, then the remaining siblings, then each ancestor's remaining
siblings in order. -/
theorem runFrom_spec :
    ∀ (loc : Loc), runFrom loc =
      preorderL [loc.cur] ++ preorderL loc.rest ++
        (loc.ancestors.map preorderL).flatten := by
  intro loc
  induction loc using runFrom.induct with
  | _ loc ih =>
    rcases loc with ⟨⟨l, kids⟩, rest, anc⟩
    match kids, rest with
    | c :: cs, rest =>
      have hn : nextLoc ⟨FTree.node l (c :: cs), rest, anc⟩ =
          some ⟨c, cs, rest :: anc⟩ := rfl
      rw [runFrom_some _ _ hn]
      have := ih ⟨c, cs, rest :: anc⟩ hn
      simp only at this
      rw [this]
      simp only [FTree.labelOf, preorderL, List.map, List.flatten]
      rw [preorderL_cons c cs]
      simp [List.append_assoc]
    | [], s :: rs =>
      have hn : nextLoc ⟨FTree.node l [], s :: rs, anc⟩ =
          some ⟨s, rs, anc⟩ := rfl
      rw [runFrom_some _ _ hn]
      have := ih ⟨s, rs, anc⟩ hn
      simp only at this
      rw [this]
      simp only [FTree.labelOf, preorderL]
      rw [preorderL_cons s rs]
      simp [List.append_assoc]
    | [], [] =>
      have hn : nextLoc ⟨FTree.node l [], [], anc⟩ =
          popToParentSibling anc := rfl
      cases hp : popToParentSibling anc with
      | none =>
        rw [runFrom_none _ (by rw [hn, hp])]
        have := (popToParentSibling_none anc hp).1
        simp [FTree.labelOf, preorderL, this]
      | some l2 =>
        rw [runFrom_some _ _ (by rw [hn, hp])]
        have := ih l2 (by rw [hn, hp])
        rw [this]
        have hpre := popToParentSibling_preorder anc l2 hp
        simp only [FTree.labelOf, preorderL]
        rw [hpre]
        simp

/-- The pre-order listing enumerates as many labels as the forest has
nodes. -/
theorem preorderL_length :
    ∀ (ts : List FTree), (preorderL ts).length = sizeL ts := by
  intro ts
  induction ts using preorderL.induct with
  | case1 => simp [preorderL, sizeL]
  | case2 l kids ts ih1 ih2 =>
    simp [preorderL, sizeL, ih1, ih2]
    omega

/-- The pre-order listing carries each label as often as the forest holds
it. -/
theorem preorderL_count :
    ∀ (ts : List FTree) (x : Nat), (preorderL ts).count x = countL x ts := by
  intro ts
  induction ts using preorderL.induct with
  | case1 => intro x; simp [preorderL, countL]
  | case2 l kids ts ih1 ih2 =>
    intro x
    simp only [preorderL, countL, List.count_cons, List.count_append,
      ih1, ih2]
    by_cases h : l = x <;> simp [h] <;> omega

/-- Stepping an exhausted token stays exhausted. -/
theorem stepN_none : ∀ (n : Nat), stepN none n = none := by
  intro n
  cases n <;> rfl

/-- Stepping splits over any partition of the step count: pausing after `a`
units and resuming for `b` more reaches the same state as running `a + b`
units in one burst. -/
theorem stepN_add :
    ∀ (a b : Nat) (s : Option Loc), stepN s (a + b) = stepN (stepN s a) b := by
  intro a
  induction a with
  | zero => intro b s; rw [Nat.zero_add]; rfl
  | succ a ih =>
    intro b s
    have : a + 1 + b = (a + b) + 1 := by omega
    rw [this]
    match s with
    | none => rw [stepN_none, stepN_none, stepN_none]
    | some loc =>
      show stepN (nextLoc loc) (a + b) = stepN (stepN (nextLoc loc) a) b
      exact ih b (nextLoc loc)

/-- A finished successor computation means the location held its last
node. -/
theorem nextLoc_none_size :
    ∀ (loc : Loc), nextLoc loc = none → loc.size = 1 := by
  intro loc h
  rcases loc with ⟨⟨l, kids⟩, rest, anc⟩
  match kids, rest with
  | c :: cs, rest => simp [nextLoc] at h
  | [], s :: rs => simp [nextLoc] at h
  | [], [] =>
    have hp : popToParentSibling anc = none := h
    have := (popToParentSibling_none anc hp).2
    simp [Loc.size, sizeL, this]

/-- Before the node count is spent, the token is still live, holding the
not-yet-visited remainder. -/
theorem stepN_size :
    ∀ (k : Nat) (loc : Loc), k < loc.size →
      ∃ l2, stepN (some loc) k = some l2 ∧ l2.size = loc.size - k := by
  intro k
  induction k with
  | zero => intro loc h; exact ⟨loc, rfl, by omega⟩
  | succ k ih =>
    intro loc h
    cases hn : nextLoc loc with
    | none =>
      have := nextLoc_none_size loc hn
      omega
    | some l2 =>
      have hs := nextLoc_size loc l2 hn
      have hk : k < l2.size := by omega
      obtain ⟨l3, hl3, hsz⟩ := ih l2 hk
      refine ⟨l3, ?_, by omega⟩
      have : stepN (some loc) (k + 1) = stepN (some l2) k := by
        rw [Nat.add_comm k 1, stepN_add]
        show stepN (stepN (nextLoc loc) 0) k = stepN (some l2) k
        rw [hn]
        rfl
      rw [this, hl3]

/-- After exactly as many units as the location holds nodes, the token is
exhausted. -/
theorem stepN_exhaust :
    ∀ (loc : Loc), stepN (some loc) loc.size = none := by
  intro loc
  have hpos := Loc.size_pos loc
  have : loc.size = (loc.size - 1) + 1 := by omega
  rw [this, stepN_add]
  obtain ⟨l2, hl2, hsz⟩ := stepN_size (loc.size - 1) loc (by omega)
  rw [hl2]
  have h1 : l2.size = 1 := by omega
  show stepN (nextLoc l2) 0 = none
  cases hn : nextLoc l2 with
  | none => rfl
  | some l3 =>
    have := nextLoc_size l2 l3 hn
    have := Loc.size_pos l3
    omega

/-- C5: repeatedly applying `perform_unit_of_work` from the root (successor:
child, else sibling, else nearest ancestor's sibling, `lib.rs:104-124`)
visits every fiber of an N-node tree exactly once, in pre-order, and the
resumption token empties after exactly N units; splitting the run into
bursts at yield points changes nothing, since the token is the whole
resumption state. -/
theorem C5_traversal_totality :
    ∀ (t : FTree),
      runFrom (rootLoc t) = preorderL [t] ∧
      (runFrom (rootLoc t)).length = sizeL [t] ∧
      (∀ x, (runFrom (rootLoc t)).count x = countL x [t]) ∧
      stepN (some (rootLoc t)) (sizeL [t]) = none ∧
      (∀ k, k < sizeL [t] → (stepN (some (rootLoc t)) k).isSome = true) ∧
      (∀ (s : Option Loc) (a b : Nat),
        stepN s (a + b) = stepN (stepN s a) b) := by
  intro t
  have hsize : (rootLoc t).size = sizeL [t] := by
    simp [rootLoc, Loc.size, sizeL]
  have h1 : runFrom (rootLoc t) = preorderL [t] := by
    have := runFrom_spec (rootLoc t)
    simpa [rootLoc, preorderL] using this
  refine ⟨h1, ?_, ?_, ?_, ?_, ?_⟩
  · rw [h1]
    exact preorderL_length [t]
  · intro x
    rw [h1]
    exact preorderL_count [t] x
  · rw [← hsize]
    exact stepN_exhaust (rootLoc t)
  · intro k hk
    rw [← hsize] at hk
    obtain ⟨l2, hl2, _⟩ := stepN_size k (rootLoc t) hk
    rw [hl2]
    rfl
  · intro s a b
    exact stepN_add a b s

/-- C5 witness: the three-node tree, visited in pre-order, with a live token
after one unit. -/
theorem C5_traversal_totality_witness :
    runFrom (rootLoc (FTree.node 0 [FTree.node 1 [], FTree.node 2 []])) =
      preorderL [FTree.node 0 [FTree.node 1 [], FTree.node 2 []]] ∧
    (stepN (some (rootLoc (FTree.node 0 [FTree.node 1 [], FTree.node 2 []])))
      1).isSome = true :=
  ⟨(C5_traversal_totality (FTree.node 0 [FTree.node 1 [], FTree.node 2 []])).1,
   (C5_traversal_totality
      (FTree.node 0 [FTree.node 1 [], FTree.node 2 []])).2.2.2.2.1 1
     (by simp [sizeL])⟩

/-- An effect arm that reports no error behaves the same under every
adapter: only a failed `append_child` produces an error. -/
theorem commit_effect_ok_eq (ok : Nat → Nat → Bool) (anc : Option Node)
    (f : Fiber) (h : (commit_effect ok anc f).2 = none) :
    commit_effect alwaysOk anc f = commit_effect ok anc f := by
  rcases f with ⟨t, p, ec, dn, eff, alt, kids⟩
  match eff with
  | none => rfl
  | some FiberEffect.Deletion => rfl
  | some FiberEffect.Update => rfl
  | some FiberEffect.Placement =>
    simp only [commit_effect, commit_node_append, Fiber.effect,
      Fiber.dom_node] at h ⊢
    match dn, anc with
    | none, _ => rfl
    | some d, none => rfl
    | some d, some a =>
      match a, d with
      | Node.element pid, Node.element cid =>
        by_cases hok : ok pid cid
        · simp [hok, alwaysOk]
        · simp [hok] at h
      | Node.element pid, Node.text cid =>
        by_cases hok : ok pid cid
        · simp [hok, alwaysOk]
        · simp [hok] at h
      | Node.text pid, Node.element cid => rfl
      | Node.text pid, Node.text cid => rfl

/-- A failed `append_child` applies nothing: the `jsError` arm emits no
events. -/
theorem commit_effect_jsError (ok : Nat → Nat → Bool) (anc : Option Node)
    (f : Fiber) (h : (commit_effect ok anc f).2 = some CommitError.jsError) :
    (commit_effect ok anc f).1 = [] := by
  rcases f with ⟨t, p, ec, dn, eff, alt, kids⟩
  match eff with
  | none => simp [commit_effect, Fiber.effect] at h
  | some FiberEffect.Deletion => simp [commit_effect, Fiber.effect] at h
  | some FiberEffect.Update =>
    simp only [commit_effect, Fiber.effect, Fiber.dom_node, Fiber.alternate,
      Fiber.props] at h ⊢
    match dn with
    | none => simp at h
    | some node =>
      match alt with
      | none => simp at h
      | some alternate =>
        match p with
        | none => simp at h
        | some next_props =>
          match node with
          | Node.element i => simp at h
          | Node.text i => simp at h
  | some FiberEffect.Placement =>
    simp only [commit_effect, commit_node_append, Fiber.effect,
      Fiber.dom_node] at h ⊢
    match dn, anc with
    | none, _ => simp at h
    | some d, none => simp at h
    | some d, some a =>
      match a, d with
      | Node.element pid, Node.element cid =>
        by_cases hok : ok pid cid
        · simp [hok] at h
        · simp [hok]
      | Node.element pid, Node.text cid =>
        by_cases hok : ok pid cid
        · simp [hok] at h
        · simp [hok]
      | Node.text pid, Node.element cid => simp at h
      | Node.text pid, Node.text cid => simp at h

/-- A panicking effect arm panics under every adapter, identically: the
`Update` arm's failure does not depend on the adapter. -/
theorem commit_effect_panic (ok : Nat → Nat → Bool) (anc : Option Node)
    (f : Fiber) (p : Panic)
    (h : (commit_effect ok anc f).2 = some (CommitError.panicked p)) :
    commit_effect alwaysOk anc f = commit_effect ok anc f := by
  rcases f with ⟨t, pr, ec, dn, eff, alt, kids⟩
  match eff with
  | none => rfl
  | some FiberEffect.Deletion => rfl
  | some FiberEffect.Update => rfl
  | some FiberEffect.Placement =>
    simp only [commit_effect, commit_node_append, Fiber.effect,
      Fiber.dom_node] at h ⊢
    match dn, anc with
    | none, _ => rfl
    | some d, none => rfl
    | some d, some a =>
      match a, d with
      | Node.element pid, Node.element cid =>
        by_cases hok : ok pid cid
        · simp [hok, alwaysOk]
        · simp [hok] at h
      | Node.element pid, Node.text cid =>
        by_cases hok : ok pid cid
        · simp [hok, alwaysOk]
        · simp [hok] at h
      | Node.text pid, Node.element cid => rfl
      | Node.text pid, Node.text cid => rfl

/-- Prefixes are preserved by prepending a common trace. -/
theorem prefixAppendLeft {l1 l2 l : List HostEvent} (h : l1 <+: l2) :
    l ++ l1 <+: l ++ l2 := by
  obtain ⟨u, hu⟩ := h
  exact ⟨u, by rw [List.append_assoc, hu]⟩

/-- A prefix of a trace is a prefix of any extension of that trace. -/
theorem prefixAppendRight {l1 l2 l3 : List HostEvent} (h : l1 <+: l2) :
    l1 <+: l2 ++ l3 := by
  obtain ⟨u, hu⟩ := h
  exact ⟨u ++ l3, by rw [← List.append_assoc, hu]⟩

/-- Commit abort and no-rollback: under any adapter, the committed trace is
a prefix of the trace an always-succeeding adapter would commit (everything
applied before the failure stays applied, nothing is applied after it), and
an error-free run commits exactly that full trace. -/
theorem commit_seq_adapter (ok : Nat → Nat → Bool) :
    ∀ (anc : Option Node) (fs : List Fiber),
      ((commit_seq ok anc fs).1 <+: (commit_seq alwaysOk anc fs).1) ∧
      ((commit_seq ok anc fs).2 = none →
        commit_seq ok anc fs = commit_seq alwaysOk anc fs)
| anc, [] => by
  constructor
  · exact ⟨[], by simp [commit_seq]⟩
  · intro h
    simp [commit_seq]
| anc, Fiber.mk t p ec dn eff alt kids :: fs => by
  have ihk := commit_seq_adapter ok
    (match dn with | some d => some d | none => anc) kids
  have ihs := commit_seq_adapter ok anc fs
  rw [commit_seq.eq_def]
  rw [commit_seq.eq_def]
  rcases h1 : commit_effect ok anc (Fiber.mk t p ec dn eff alt kids)
    with ⟨evs, err⟩
  simp only [h1]
  match err with
  | some CommitError.jsError =>
    have hevs : evs = [] := by
      have := commit_effect_jsError ok anc (Fiber.mk t p ec dn eff alt kids)
        (by rw [h1])
      rw [h1] at this
      exact this
    subst hevs
    constructor
    · exact List.nil_prefix
    · intro hcontra
      simp at hcontra
  | some (CommitError.panicked pp) =>
    have hA := commit_effect_panic ok anc (Fiber.mk t p ec dn eff alt kids) pp
      (by rw [h1])
    rw [h1] at hA
    rw [hA]
    constructor
    · exact ⟨[], by simp⟩
    · intro hcontra
      simp at hcontra
  | none =>
    have hEq := commit_effect_ok_eq ok anc (Fiber.mk t p ec dn eff alt kids)
      (by rw [h1])
    rw [h1] at hEq
    rw [hEq]
    generalize hca : (match dn with | some d => some d | none => anc) = ca
      at ihk ⊢
    obtain ⟨ihkP, ihkE⟩ := ihk
    obtain ⟨ihsP, ihsE⟩ := ihs
    cases hck : (commit_seq ok ca kids).2 with
    | some e =>
      cases hcA : (commit_seq alwaysOk ca kids).2 with
      | some eA =>
        constructor
        · show evs ++ (commit_seq ok ca kids).1 <+:
            evs ++ (commit_seq alwaysOk ca kids).1
          exact prefixAppendLeft ihkP
        · intro hcontra
          simp at hcontra
      | none =>
        constructor
        · show evs ++ (commit_seq ok ca kids).1 <+:
            evs ++ (commit_seq alwaysOk ca kids).1 ++
              (commit_seq alwaysOk anc fs).1
          exact prefixAppendRight (prefixAppendLeft ihkP)
        · intro hcontra
          simp at hcontra
    | none =>
      have hkEq := ihkE hck
      rw [hkEq]
      cases hcA : (commit_seq alwaysOk ca kids).2 with
      | some eA =>
        rw [hkEq] at hck
        rw [hck] at hcA
        cases hcA
      | none =>
        constructor
        · show evs ++ (commit_seq alwaysOk ca kids).1 ++
              (commit_seq ok anc fs).1 <+:
            evs ++ (commit_seq alwaysOk ca kids).1 ++
              (commit_seq alwaysOk anc fs).1
          exact prefixAppendLeft ihsP
        · intro hserr
          have hsEq := ihsE (by simpa using hserr)
          show (evs ++ (commit_seq alwaysOk ca kids).1 ++
              (commit_seq ok anc fs).1, (commit_seq ok anc fs).2) =
            (evs ++ (commit_seq alwaysOk ca kids).1 ++
              (commit_seq alwaysOk anc fs).1, (commit_seq alwaysOk anc fs).2)
          rw [hsEq]
termination_by anc fs => sizeOf fs

/-- C9: if a host-adapter append fails during a commit pass, the commit
aborts at that step — the trace applied under any adapter is a prefix of the
always-succeeding adapter's trace, everything applied before the failure
remaining applied with no rollback — an error-free pass applies the full
trace, and `commit_root` surfaces to its caller (`work_loop`, via `?`)
exactly the commit's applied events and its single terminal error. -/
theorem C9_commit_abort_no_rollback :
    ∀ (ok : Nat → Nat → Bool) (anc : Option Node) (fs : List Fiber),
      ((commit_seq ok anc fs).1 <+: (commit_seq alwaysOk anc fs).1) ∧
      ((commit_seq ok anc fs).2 = none →
        commit_seq ok anc fs = commit_seq alwaysOk anc fs) ∧
      (∀ (c : Context) (w : Fiber), c.wip_root = some w →
        (commit_root ok c).2.1 =
          (commit_seq ok w.dom_node w.children).1 ∧
        (commit_root ok c).2.2 =
          (commit_seq ok w.dom_node w.children).2) := by
  intro ok anc fs
  refine ⟨(commit_seq_adapter ok anc fs).1, (commit_seq_adapter ok anc fs).2,
    ?_⟩
  intro c w hw
  simp only [commit_root, hw]
  cases herr : (commit_seq ok w.dom_node w.children).2 with
  | some e => exact ⟨by simp [herr], by simp [herr]⟩
  | none => exact ⟨by simp [herr], by simp [herr]⟩

/-- C9 witness: a failing adapter's trace for a one-child `Placement`
commit is a prefix of the successful one; the successful commit equals
itself under the adapter swap; and `commit_root` on a demo root surfaces the
commit's trace and error. -/
theorem C9_commit_abort_no_rollback_witness :
    ((commit_seq (fun _ _ => false) (some containerNode)
        [placedDivFiber]).1 <+:
      (commit_seq alwaysOk (some containerNode) [placedDivFiber]).1) ∧
    commit_seq alwaysOk (some containerNode) [placedDivFiber] =
      commit_seq alwaysOk (some containerNode) [placedDivFiber] ∧
    ((commit_root alwaysOk ⟨some commitDemoRoot, none, none⟩).2.1 =
      (commit_seq alwaysOk commitDemoRoot.dom_node
        commitDemoRoot.children).1 ∧
     (commit_root alwaysOk ⟨some commitDemoRoot, none, none⟩).2.2 =
      (commit_seq alwaysOk commitDemoRoot.dom_node
        commitDemoRoot.children).2) :=
  ⟨(C9_commit_abort_no_rollback (fun _ _ => false) (some containerNode)
      [placedDivFiber]).1,
   (C9_commit_abort_no_rollback alwaysOk (some containerNode)
      [placedDivFiber]).2.1
     (by
       simp [commit_seq, commit_effect, commit_node_append, alwaysOk,
         placedDivFiber, emptyProps, containerNode, Fiber.effect,
         Fiber.dom_node, Node.id]),
   (C9_commit_abort_no_rollback alwaysOk (some containerNode)
      [placedDivFiber]).2.2
     ⟨some commitDemoRoot, none, none⟩ commitDemoRoot rfl⟩

/-- A host-node creation that succeeds had an attribute map to unwrap. -/
theorem create_dom_node_ok (i : Nat) (t : String) (p : Option ElementProps)
    (r : Nat × Node × List HostEvent) (h : create_dom_node i t p = .ok r) :
    p.isSome = true := by
  match p with
  | none => simp [create_dom_node] at h
  | some props => rfl

/-- Patching a node against its own attributes emits nothing. -/
theorem update_dom_node_self (n : Node) (p : ElementProps) :
    update_dom_node n (some p) p = [] := by
  rcases hc : p.class_name with _ | v <;> simp [update_dom_node, hc]

/-- Patching a text node against its own attributes emits nothing. -/
theorem update_dom_text_self (n : Node) (p : ElementProps) :
    update_dom_text n (some p) p = [] := by
  rcases hc : p.node_value with _ | v <;> simp [update_dom_text, hc]

/-- An initial build (empty old chain) produces a generation mirroring its
element list. -/
theorem buildChildren_mirrors :
    ∀ (ck : Option (List Element)) (id id2 : Nat) (fs : List Fiber)
      (evs : List HostEvent),
      buildChildren id ck [] = .ok (id2, fs, evs) →
      ChainMirrors ck fs
| none, id, id2, fs, evs => by
  intro hok
  simp only [buildChildren, Except.ok.injEq, Prod.mk.injEq] at hok
  simp only [ChainMirrors]
  exact hok.2.1.symm
| some [], id, id2, fs, evs => by
  intro hok
  simp only [buildChildren, Except.ok.injEq, Prod.mk.injEq] at hok
  simp only [ChainMirrors]
  rw [← hok.2.1]
  simp [MirrorsL]
| some (Element.mk ct cp ckk :: rest), id, id2, fs, evs => by
  intro hok
  simp only [buildChildren, List.head?_nil, List.tail_nil, pairChild,
    altChildren, Element.element_type, Element.props, Element.children] at hok
  rcases hcr : create_dom_node id ct cp with herr | ⟨id1, node, evs1⟩ <;>
    rw [hcr] at hok
  · simp at hok
  · simp only at hok
    rcases hb : buildChildren id1 ckk [] with herr2 | ⟨idk, kids, evs2⟩ <;>
      rw [hb] at hok
    · simp at hok
    · simp only at hok
      rcases hsib : buildChildren idk (some rest) [] with
        herr3 | ⟨ids, siblings, evs3⟩ <;> rw [hsib] at hok
      · simp at hok
      · simp only [Except.ok.injEq, Prod.mk.injEq] at hok
        obtain ⟨hid, hfs, hevs⟩ := hok
        simp only [ChainMirrors]
        rw [← hfs]
        have hkids := buildChildren_mirrors ckk id1 idk kids evs2 hb
        have hsibs := buildChildren_mirrors (some rest) idk ids siblings
          evs3 hsib
        simp only [ChainMirrors] at hsibs
        rw [MirrorsL.eq_def]
        refine ⟨rfl, rfl, create_dom_node_ok id ct cp _ hcr, rfl, rfl, ?_,
          hsibs⟩
        match ckk, hkids with
        | none, hkids =>
          simp only [ChainMirrors] at hkids
          rw [hkids]
          exact trivial
        | some els, hkids =>
          simp only [ChainMirrors] at hkids
          exact hkids
termination_by ck id id2 fs evs => sizeOf ck

/-- Rebuilding against a mirroring old generation succeeds, allocates no
node, emits no event, and yields a pure `Update` shadow of the old chain. -/
theorem buildChildren_upd :
    ∀ (ck : Option (List Element)) (fs : List Fiber),
      ChainMirrors ck fs →
      ∀ id, ∃ fs2, buildChildren id ck fs = .ok (id, fs2, []) ∧
        UpdShadowL fs2
| none, fs => by
  intro hm id
  simp only [ChainMirrors] at hm
  subst hm
  exact ⟨[], by simp [buildChildren], by simp [UpdShadowL]⟩
| some [], fs => by
  intro hm id
  simp only [ChainMirrors] at hm
  match fs, hm with
  | [], _ => exact ⟨[], by simp [buildChildren], by simp [UpdShadowL]⟩
  | Fiber.mk t p ec dn eff alt kids :: fsr, hm =>
    rw [MirrorsL.eq_def] at hm
    simp only at hm
| some (Element.mk et ep eck :: es), fs => by
  intro hm id
  simp only [ChainMirrors] at hm
  match fs, hm with
  | [], hm =>
    rw [MirrorsL.eq_def] at hm
    simp only at hm
  | Fiber.mk t p ec dn eff alt kids :: fsr, hm =>
    rw [MirrorsL.eq_def] at hm
    simp only at hm
    obtain ⟨ht, hp, hps, hec, hdn, hkids, hrest⟩ := hm
    subst ht hp hec
    rw [Option.isSome_iff_exists] at hdn
    obtain ⟨d, hd⟩ := hdn
    subst hd
    obtain ⟨props, hp2⟩ := Option.isSome_iff_exists.mp hps
    have hkm : ChainMirrors ec kids :=
      match ec, kids, hkids with
      | none, [], _ => rfl
      | none, _ :: _, hk => hk.elim
      | some els, kids, hk => hk
    obtain ⟨kids2, hbk, hupk⟩ := buildChildren_upd ec kids hkm id
    obtain ⟨sib2, hbs, hups⟩ := buildChildren_upd (some es) fsr hrest id
    refine ⟨Fiber.mk t p ec (some d) (some FiberEffect.Update)
      (some (Fiber.mk t p ec (some d) eff alt kids)) kids2 :: sib2,
      ?_, ?_⟩
    · simp [buildChildren, pairChild, altChildren, Fiber.element_type,
        Element.element_type, Element.props, Element.children,
        Fiber.children, Fiber.dom_node, Fiber.props,
        Fiber.element_children, Fiber.alternate, Fiber.effect, hbk, hbs]
    · rw [UpdShadowL.eq_def]
      exact ⟨rfl, rfl,
        ⟨props, Fiber.mk t p ec (some d) eff alt kids, hp2, rfl, hp2⟩,
        hupk, hups⟩
termination_by ck fs => sizeOf ck
decreasing_by
all_goals simp_wf
all_goals (try subst_vars)
all_goals (try simp [Element.mk.sizeOf_spec])
all_goals omega

/-- Committing a pure `Update` shadow whose props did not change applies no
host mutation and raises no error, whatever the adapter or ancestor. -/
theorem commit_upd (ok : Nat → Nat → Bool) :
    ∀ (anc : Option Node) (fs : List Fiber), UpdShadowL fs →
      commit_seq ok anc fs = ([], none)
| anc, [] => by
  intro _
  simp [commit_seq]
| anc, Fiber.mk t p ec dn eff alt kids :: fs => by
  intro hu
  rw [UpdShadowL.eq_def] at hu
  simp only at hu
  obtain ⟨heff, hdn, ⟨props, a, hp, halt, hap⟩, huk, hus⟩ := hu
  obtain ⟨t2, p2, ec2, dn2, eff2, alt2, kids2⟩ := a
  simp only [Fiber.props] at hap
  subst heff hp halt hap
  rw [Option.isSome_iff_exists] at hdn
  obtain ⟨d, hd⟩ := hdn
  subst hd
  have ihk := commit_upd ok (some d) kids huk
  have ihs := commit_upd ok anc fs hus
  rw [commit_seq.eq_def]
  have he : commit_effect ok anc
      (Fiber.mk t (some props) ec (some d) (some FiberEffect.Update)
        (some (Fiber.mk t2 (some props) ec2 dn2 eff2 alt2 kids2)) kids)
      = ([], none) := by
    simp only [commit_effect, Fiber.effect, Fiber.dom_node, Fiber.alternate,
      Fiber.props]
    match d with
    | Node.element i => simp [update_dom_node_self]
    | Node.text i => simp [update_dom_text_self]
  simp only [he, ihk, ihs]
  simp
termination_by anc fs => sizeOf fs

/-- C6: the spec asserts idempotence — rendering a virtual tree and
committing, then rendering the identical tree again, produces zero host
mutations on the second pass: the rebuild emits no events and allocates no
node (every fiber reuses its committed dom node), and the second commit
applies no host call and raises no error, whatever the adapter and
ancestor. -/
theorem C6_idempotent_rerender (next_id : Nat) (element : Element)
    (container : Node) (id1 : Nat) (root1 : Fiber) (evs1 : List HostEvent)
    (h : render_pass next_id element none container =
      .ok (id1, root1, evs1)) :
    ∃ fs2,
      render_pass id1 element (some root1) container =
        .ok (id1,
             Fiber.mk FIBER_ROOT none (some [element]) (some container) none
               (some root1) fs2,
             []) ∧
      ∀ (o : Nat → Nat → Bool) (anc : Option Node),
        commit_seq o anc fs2 = ([], none) := by
  simp only [render_pass, altChildren] at h
  rcases hb : buildChildren next_id (some [element]) [] with
    herr | ⟨id0, kids, evs⟩ <;> rw [hb] at h
  · simp at h
  · simp only [Except.ok.injEq, Prod.mk.injEq] at h
    obtain ⟨hid, hroot, hevs⟩ := h
    subst hid hroot
    have hm := buildChildren_mirrors (some [element]) next_id id0 kids
      evs hb
    obtain ⟨fs2, hb2, hupd⟩ := buildChildren_upd (some [element]) kids hm
      id0
    refine ⟨fs2, ?_, ?_⟩
    · simp only [render_pass, altChildren, Fiber.children, hb2]
    · intro o anc
      exact commit_upd o anc fs2 hupd

/-- The second render of `div [text "A"]` against its committed first
generation emits nothing and its commit applies no host call. -/
theorem C6_idempotent_rerender_witness :
    ∃ fs2,
      render_pass 3 (divWith [textElement "A"])
          (some (Fiber.mk "ROOT" none
            (some [Element.mk "div" (some ⟨none, none⟩)
              (some [Element.mk "TEXT_ELEMENT" (some ⟨none, some "A"⟩)
                none])])
            (some (Node.element 0)) none none
            [Fiber.mk "div" (some ⟨none, none⟩)
              (some [Element.mk "TEXT_ELEMENT" (some ⟨none, some "A"⟩)
                none])
              (some (Node.element 1)) (some FiberEffect.Placement) none
              [Fiber.mk "TEXT_ELEMENT" (some ⟨none, some "A"⟩) none
                (some (Node.text 2)) (some FiberEffect.Placement) none
                []]]))
          containerNode =
        .ok (3,
             Fiber.mk FIBER_ROOT none (some [divWith [textElement "A"]])
               (some containerNode) none
               (some (Fiber.mk "ROOT" none
                 (some [Element.mk "div" (some ⟨none, none⟩)
                   (some [Element.mk "TEXT_ELEMENT"
                     (some ⟨none, some "A"⟩) none])])
                 (some (Node.element 0)) none none
                 [Fiber.mk "div" (some ⟨none, none⟩)
                   (some [Element.mk "TEXT_ELEMENT" (some ⟨none, some "A"⟩)
                     none])
                   (some (Node.element 1)) (some FiberEffect.Placement) none
                   [Fiber.mk "TEXT_ELEMENT" (some ⟨none, some "A"⟩) none
                     (some (Node.text 2)) (some FiberEffect.Placement) none
                     []]])) fs2,
             []) ∧
      ∀ (o : Nat → Nat → Bool) (anc : Option Node),
        commit_seq o anc fs2 = ([], none) :=
  C6_idempotent_rerender 1 (divWith [textElement "A"]) containerNode 3 _ _
    pass1_divA_eval

/-- The scheduler loop performs no unit of work when the yield signal is
already set on entry (`lib.rs:70-73`: the `loop` breaks before its body). -/
theorem work_loop_iter_timeout (c : Context) (k : Nat) :
    work_loop_iter c true k = (c, k) := by
  rw [work_loop_iter]
  split <;> simp

/-- Committing never changes the resumption token. -/
theorem commit_root_next (ok : Nat → Nat → Bool) (c : Context) :
    (commit_root ok c).1.next_unit_of_work = c.next_unit_of_work := by
  cases hw : c.wip_root with
  | none => simp [commit_root, hw]
  | some w =>
    simp only [commit_root, hw]
    cases (commit_seq ok w.dom_node w.children).2 <;> simp

/-- C10: calling `work_loop` with the yield signal already true performs
zero units of work, leaves `next_unit_of_work` unchanged, and triggers the
commit exactly when `next_unit_of_work` was already empty on entry and a
work-in-progress root exists — otherwise the scheduler state is returned
unmodified (`lib.rs:67-85`). -/
theorem C10_work_loop_timeout :
    ∀ (ok : Nat → Nat → Bool) (c : Context),
      (work_loop ok c true).2.1 = 0 ∧
      (work_loop ok c true).1.next_unit_of_work = c.next_unit_of_work ∧
      work_loop ok c true =
        (if c.next_unit_of_work.isNone ∧ c.wip_root.isSome then
          ((commit_root ok c).1, 0, (commit_root ok c).2.1, (commit_root ok c).2.2)
        else (c, 0, [], none)) := by
  intro ok c
  have hiter := work_loop_iter_timeout c 0
  have hwl : work_loop ok c true =
      (if c.next_unit_of_work.isNone ∧ c.wip_root.isSome then
        ((commit_root ok c).1, 0, (commit_root ok c).2.1, (commit_root ok c).2.2)
      else (c, 0, [], none)) := by
    simp only [work_loop, hiter]
  refine ⟨?_, ?_, hwl⟩
  · rw [hwl]
    split
    · rfl
    · rfl
  · rw [hwl]
    split
    · exact commit_root_next ok c
    · rfl

end Fusion
